import Mathlib

/-!
Shallow embedding of the tab-recency / jump-list core (TabRecency and
TabJumpList classes of the tab-recency module).  Tab identifiers are `Int`
(Chrome tab ids are non-negative; `-1` is the "no tab" sentinel the code
uses).  Instants are `Nat` milliseconds; the JS `currentTime - lastVisitedTime`
comparison `TIME_DELTA <= delta` rejects negative deltas exactly as truncated
`Nat` subtraction rejects them (both give "no credit"), so `Nat` time is
faithful.  The recency cache (a JS object keyed by tab id) is an association
list with unique keys; its iteration order only matters through the sort in
`getTabsByRecency`, whose output is determined by the (pairwise distinct)
timestamps alone.
-/

namespace QuicKey

/-- `TIME_DELTA` from the source: debounce interval in milliseconds. -/
def TIME_DELTA : Nat := 250

/-- The `TabJumpList` class: frozen snapshot `tabs`, current position
`activeIdx` (an `Int`, since the constructor sets `tabs.length - 1`, which is
`-1` for an empty snapshot), and the tombstone set `deletedTabs` (modelled as
a duplicate-free list, mirroring a JS `Set`). -/
structure TabJumpList where
  tabs : List Int
  activeIdx : Int
  deletedTabs : List Int
deriving DecidableEq

/-- The `TabJumpList` constructor: `activeIdx = tabs.length - 1`, empty
tombstone set. -/
def TabJumpList.new (tabs : List Int) : TabJumpList :=
  { tabs := tabs, activeIdx := (tabs.length : Int) - 1, deletedTabs := [] }

/-- JS array indexing `l[i]`: the element for `0 ≤ i < length`, `undefined`
(here `none`) otherwise. -/
def jsIdx (l : List Int) (i : Int) : Option Int :=
  if 0 ≤ i then l[i.toNat]? else none

/-- `isCoherent(currentTabId)`: `this.tabs[this.activeIdx] === currentTabId`.
(`undefined === n` is `false` for a number `n`, matching `none ≠ some n`.) -/
def TabJumpList.isCoherent (jl : TabJumpList) (tabId : Int) : Bool :=
  decide (jsIdx jl.tabs jl.activeIdx = some tabId)

/-- `TabJumpList.deregister(tabId)`: if the anchor `tabs[activeIdx]` equals
`tabId`, report invalidated (`true`) and leave the structure untouched
(the source returns before mutating anything); otherwise add a tombstone
(`Set.add`: no change when already present) and report `false`. -/
def TabJumpList.deregister (jl : TabJumpList) (tabId : Int) : Bool × TabJumpList :=
  if jsIdx jl.tabs jl.activeIdx = some tabId then (true, jl)
  else
    (false,
      { jl with
        deletedTabs :=
          if tabId ∈ jl.deletedTabs then jl.deletedTabs
          else jl.deletedTabs ++ [tabId] })

/-- Loop-body test of the two scan loops: index `i` is a candidate unless
`deletedTabs.has(tabs[i])`.  An out-of-range index reads `undefined`, which is
never in the set, hence is "kept" (only reachable in malformed states). -/
def TabJumpList.keep (jl : TabJumpList) (i : Nat) : Bool :=
  match jl.tabs[i]? with
  | some t => ! decide (t ∈ jl.deletedTabs)
  | none => true

/-- The `getJumpBackTabId` loop: scan indices `j, j-1, …, 0`, returning the
first kept index (the loop breaks at the first candidate since `need = 1`). -/
def TabJumpList.scanBack (jl : TabJumpList) : Nat → Option Nat
  | 0 => if jl.keep 0 then some 0 else none
  | j + 1 => if jl.keep (j + 1) then some (j + 1) else jl.scanBack j

/-- `getJumpBackTabId()`: scan from `activeIdx - 1` down to `0`; on success
move `activeIdx` there and return that tab, else return the `-1` sentinel and
leave the state untouched. -/
def TabJumpList.getJumpBackTabId (jl : TabJumpList) : Int × TabJumpList :=
  if jl.activeIdx - 1 < 0 then (-1, jl)
  else
    match jl.scanBack (jl.activeIdx - 1).toNat with
    | none => (-1, jl)
    | some i => ((jl.tabs[i]?).getD (-1), { jl with activeIdx := (i : Int) })

/-- Offset of the first element of `l` not in `deleted` (the upward scan of
`getJumpForwardTabId`, expressed on the suffix of `tabs` the loop visits). -/
def scanKept (deleted : List Int) : List Int → Option Nat
  | [] => none
  | t :: rest =>
      if t ∈ deleted then (scanKept deleted rest).map (· + 1) else some 0

/-- `getJumpForwardTabId()`: scan from `activeIdx + 1` up to the end of
`tabs`; on success move `activeIdx` there and return that tab, else return
the `-1` sentinel and leave the state untouched. -/
def TabJumpList.getJumpForwardTabId (jl : TabJumpList) : Int × TabJumpList :=
  match (scanKept jl.deletedTabs (jl.tabs.drop (jl.activeIdx + 1).toNat)).map
      (fun k => (jl.activeIdx + 1).toNat + k) with
  | none => (-1, jl)
  | some i => ((jl.tabs[i]?).getD (-1), { jl with activeIdx := (i : Int) })

/-- States actually produced by the constructor and the traversal steps:
`activeIdx` lies in `[-1, tabs.length)`. -/
def TabJumpList.WellFormed (jl : TabJumpList) : Prop :=
  -1 ≤ jl.activeIdx ∧ jl.activeIdx < (jl.tabs.length : Int)

instance (jl : TabJumpList) : Decidable jl.WellFormed := by
  unfold TabJumpList.WellFormed
  infer_instance

/-- The `TabRecency` class state.  `cache` is the recency map
(`recencyByTab`), `lastVisited`/`lastVisitedTime` the pending (debounce)
state; the source assigns the two pending fields together, always both null
or both set. -/
structure TabRecency where
  timestamp : Nat
  current : Int
  cache : List (Int × Nat)
  lastVisited : Option Int
  lastVisitedTime : Option Nat
  jumpList : Option TabJumpList
deriving DecidableEq

/-- The `TabRecency` constructor's field initialisation. -/
def initialTabRecency : TabRecency :=
  { timestamp := 1, current := -1, cache := [], lastVisited := none,
    lastVisitedTime := none, jumpList := none }

/-- Association-list read, `cache[k]`. -/
def lookupCache : List (Int × Nat) → Int → Option Nat
  | [], _ => none
  | (k', v) :: rest, k => if k' = k then some v else lookupCache rest k

/-- Association-list write, `cache[k] = v` (update in place, or append a new
key). -/
def setCache : List (Int × Nat) → Int → Nat → List (Int × Nat)
  | [], k, v => [(k, v)]
  | (k', v') :: rest, k, v =>
      if k' = k then (k, v) :: rest else (k', v') :: setCache rest k v

/-- `delete cache[k]`. -/
def eraseCache : List (Int × Nat) → Int → List (Int × Nat)
  | [], _ => []
  | (k', v') :: rest, k =>
      if k' = k then eraseCache rest k else (k', v') :: eraseCache rest k

/-- First half of `register`: if the pending tab has dwelt for at least
`TIME_DELTA` ms, credit it with a freshly incremented clock value
(`this.cache[this.lastVisited] = ++this.timestamp`).  The source only tests
`lastVisitedTime != null`; `lastVisited` is then non-null too (the fields are
assigned in lockstep), so the `some _, none` case is unreachable and modelled
as a no-op. -/
def TabRecency.creditPending (s : TabRecency) (now : Nat) : TabRecency :=
  match s.lastVisitedTime, s.lastVisited with
  | some lvt, some lv =>
      if TIME_DELTA ≤ now - lvt then
        { s with timestamp := s.timestamp + 1,
                 cache := setCache s.cache lv (s.timestamp + 1) }
      else s
  | _, _ => s

/-- Second half of `register`: `if (this.jumpList && !this.jumpList.isCoherent(tabId)) this.jumpList = null`. -/
def TabRecency.dropIncoherent (s : TabRecency) (tabId : Int) : TabRecency :=
  match s.jumpList with
  | some jl => if jl.isCoherent tabId then s else { s with jumpList := none }
  | none => s

/-- `TabRecency.register(tabId)` at wall-clock instant `now`. -/
def TabRecency.register (s : TabRecency) (tabId : Int) (now : Nat) : TabRecency :=
  let s2 := (s.creditPending now).dropIncoherent tabId
  { s2 with current := tabId, lastVisited := some tabId,
            lastVisitedTime := some now }

/-- `TabRecency.deregister(tabId)`: clear the pending state when the pending
tab goes away, drop the cache entry, and forward to the jump list, discarding
it when it reports invalidation. -/
def TabRecency.deregister (s : TabRecency) (tabId : Int) : TabRecency :=
  let s1 :=
    if s.lastVisited = some tabId then
      { s with lastVisited := none, lastVisitedTime := none }
    else s
  let s2 := { s1 with cache := eraseCache s1.cache tabId }
  match s2.jumpList with
  | some jl =>
      let r := jl.deregister tabId
      if r.1 then { s2 with jumpList := none }
      else { s2 with jumpList := some r.2 }
  | none => s2

/-- Stable insertion into a list sorted by timestamp descending (ties keep
the existing element first, as JS stable sort with comparator
`cache[b] - cache[a]` would). -/
def insertByStamp (p : Int × Nat) : List (Int × Nat) → List (Int × Nat)
  | [] => [p]
  | q :: rest => if p.2 ≤ q.2 then q :: insertByStamp p rest else p :: q :: rest

/-- Sort the cache entries by timestamp descending. -/
def sortByStampDesc : List (Int × Nat) → List (Int × Nat)
  | [] => []
  | p :: rest => insertByStamp p (sortByStampDesc rest)

/-- `getTabsByRecency()`: cache keys sorted by timestamp descending, most
recent first.  (JS round-trips keys through strings and `parseInt`; for
integer tab ids that is the identity.) -/
def TabRecency.getTabsByRecency (s : TabRecency) : List Int :=
  (sortByStampDesc s.cache).map Prod.fst

/-- The snapshot list built by `jumpBackTab` when no jump list exists:
`getTabsByRecency().reverse()`, with `current` pushed when the list is
non-empty and its last element differs from `current`. -/
def TabRecency.buildJumpTabs (s : TabRecency) : List Int :=
  match s.getTabsByRecency.reverse.getLast? with
  | none => s.getTabsByRecency.reverse
  | some l =>
      if l ≠ s.current then s.getTabsByRecency.reverse ++ [s.current]
      else s.getTabsByRecency.reverse

/-- The jump list `jumpBackTab` constructs lazily: `new TabJumpList(tabs)`. -/
def TabRecency.builtJumpList (s : TabRecency) : TabJumpList :=
  TabJumpList.new s.buildJumpTabs

/-- `jumpBackTab()`.  Returns the new tracker state and the list of
`selectSpecificTab` invocations (the external activation primitive).  The
source's statement `backTabId === -1 ? this.current : backTabId;` is an
expression statement whose value is discarded (dead code), so
`selectSpecificTab(backTabId)` is always called, with the raw step result,
sentinel included. -/
def TabRecency.jumpBackTab (s : TabRecency) : TabRecency × List Int :=
  let jl :=
    match s.jumpList with
    | none => s.builtJumpList
    | some jl => jl
  let r := jl.getJumpBackTabId
  ({ s with jumpList := some r.2 }, [r.1])

/-- `jumpForwardTab()`.  No lazy construction here: when no jump list exists,
`forwardTabId` stays `-1` and `selectSpecificTab(-1)` is still invoked (the
guarding ternary is dead code, as in `jumpBackTab`). -/
def TabRecency.jumpForwardTab (s : TabRecency) : TabRecency × List Int :=
  match s.jumpList with
  | some jl =>
      let r := jl.getJumpForwardTabId
      ({ s with jumpList := some r.2 }, [r.1])
  | none => (s, [-1])

/-- The event alphabet the claims quantify over: `register` (with its
wall-clock instant) and `deregister` calls. -/
inductive TabEvent where
  | reg (tabId : Int) (now : Nat)
  | dereg (tabId : Int)
deriving DecidableEq

/-- One tracker event. -/
def stepEvent (s : TabRecency) : TabEvent → TabRecency
  | .reg t now => s.register t now
  | .dereg t => s.deregister t

/-- A sequence of tracker events. -/
def runEvents (s : TabRecency) (evs : List TabEvent) : TabRecency :=
  evs.foldl stepEvent s

/-- Invariant B / coherence: whenever a jump list exists, its anchor
`tabs[activeIdx]` equals the tracker's `current`. -/
def coherentState (s : TabRecency) : Bool :=
  match s.jumpList with
  | none => true
  | some jl => jl.isCoherent s.current

/-- No non-tombstoned tab below `activeIdx` (the indices `getJumpBackTabId`
scans). -/
def allDeadBelow (jl : TabJumpList) : Bool :=
  (jl.tabs.take jl.activeIdx.toNat).all (fun t => decide (t ∈ jl.deletedTabs))

/-- No non-tombstoned tab above `activeIdx` (the indices `getJumpForwardTabId`
scans). -/
def allDeadAbove (jl : TabJumpList) : Bool :=
  (jl.tabs.drop (jl.activeIdx + 1).toNat).all (fun t => decide (t ∈ jl.deletedTabs))

/-- Direction of one jump-list traversal call. -/
inductive JumpDir where
  | back
  | fwd
deriving DecidableEq

/-- One `getJumpBackTabId` / `getJumpForwardTabId` call. -/
def jumpStep (jl : TabJumpList) : JumpDir → Int × TabJumpList
  | .back => jl.getJumpBackTabId
  | .fwd => jl.getJumpForwardTabId

/-- The values returned by a sequence of traversal calls. -/
def jumpResults : TabJumpList → List JumpDir → List Int
  | _, [] => []
  | jl, d :: ds => (jumpStep jl d).1 :: jumpResults (jumpStep jl d).2 ds

theorem lookupCache_setCache_self (c : List (Int × Nat)) (k : Int) (v : Nat) :
    lookupCache (setCache c k v) k = some v := by
  induction c with
  | nil => simp [setCache, lookupCache]
  | cons q rest ih =>
    obtain ⟨k', v'⟩ := q
    by_cases h : k' = k
    · simp [setCache, h, lookupCache]
    · simp [setCache, h, lookupCache, ih]

theorem lookupCache_setCache_ne (c : List (Int × Nat)) (k t : Int) (v : Nat)
    (h : t ≠ k) : lookupCache (setCache c k v) t = lookupCache c t := by
  have hk : ¬ k = t := fun hh => h hh.symm
  induction c with
  | nil => simp [setCache, lookupCache, hk]
  | cons q rest ih =>
    obtain ⟨k', v'⟩ := q
    by_cases hkk : k' = k
    · subst hkk
      simp [setCache, lookupCache, hk]
    · simp only [setCache, if_neg hkk, lookupCache, ih]

theorem creditPending_jumpList (s : TabRecency) (now : Nat) :
    (s.creditPending now).jumpList = s.jumpList := by
  unfold TabRecency.creditPending
  split
  · split <;> rfl
  · rfl

theorem creditPending_current (s : TabRecency) (now : Nat) :
    (s.creditPending now).current = s.current := by
  unfold TabRecency.creditPending
  split
  · split <;> rfl
  · rfl

/-- `dropIncoherent` keeps a jump list only when it is coherent with the
incoming tab. -/
theorem dropIncoherent_spec (s : TabRecency) (tabId : Int) (jl : TabJumpList)
    (h : (s.dropIncoherent tabId).jumpList = some jl) :
    s.jumpList = some jl ∧ jl.isCoherent tabId = true := by
  unfold TabRecency.dropIncoherent at h
  split at h
  · rename_i jl0 heq
    split at h
    · rename_i hc
      rw [heq] at h
      injection h with h2
      subst h2
      exact ⟨heq, hc⟩
    · simp at h
  · rename_i heq
    rw [heq] at h
    exact Option.noConfusion h

theorem register_jumpList (s : TabRecency) (tabId : Int) (now : Nat) :
    (s.register tabId now).jumpList =
      ((s.creditPending now).dropIncoherent tabId).jumpList := rfl

theorem register_current (s : TabRecency) (tabId : Int) (now : Nat) :
    (s.register tabId now).current = tabId := rfl

/-- After any `register` call the tracker is coherent: the jump list either
was discarded or certified coherent with the tab that becomes `current`. -/
theorem coherent_after_register (s : TabRecency) (tabId : Int) (now : Nat) :
    coherentState (s.register tabId now) = true := by
  unfold coherentState
  cases h : (s.register tabId now).jumpList with
  | none => rfl
  | some jl =>
    have h2 : ((s.creditPending now).dropIncoherent tabId).jumpList = some jl := h
    have h3 := dropIncoherent_spec _ _ _ h2
    show jl.isCoherent (s.register tabId now).current = true
    rw [register_current]
    exact h3.2

/-- What `deregister` does to the jump list: either it is gone, or it was a
live list whose anchor differs from `tabId` and only its tombstone set
changed. -/
theorem deregister_jumpList_cases (s : TabRecency) (tabId : Int) :
    (s.deregister tabId).jumpList = none
    ∨ ∃ jl, s.jumpList = some jl ∧ jsIdx jl.tabs jl.activeIdx ≠ some tabId
        ∧ (s.deregister tabId).jumpList =
            some { jl with
                    deletedTabs :=
                      if tabId ∈ jl.deletedTabs then jl.deletedTabs
                      else jl.deletedTabs ++ [tabId] } := by
  unfold TabRecency.deregister
  cases hj : s.jumpList with
  | none =>
    left
    by_cases hlv : s.lastVisited = some tabId <;> simp [hlv, hj]
  | some jl =>
    by_cases ha : jsIdx jl.tabs jl.activeIdx = some tabId
    · left
      by_cases hlv : s.lastVisited = some tabId <;>
        simp [hlv, hj, TabJumpList.deregister, ha]
    · right
      refine ⟨jl, rfl, ha, ?_⟩
      by_cases hlv : s.lastVisited = some tabId <;>
        simp [hlv, hj, TabJumpList.deregister, ha]

theorem deregister_current (s : TabRecency) (tabId : Int) :
    (s.deregister tabId).current = s.current := by
  unfold TabRecency.deregister
  cases hj : s.jumpList with
  | none =>
    by_cases hlv : s.lastVisited = some tabId <;> simp [hlv, hj]
  | some jl =>
    by_cases ha : jsIdx jl.tabs jl.activeIdx = some tabId <;>
      by_cases hlv : s.lastVisited = some tabId <;>
      simp [hlv, hj, TabJumpList.deregister, ha]

/-- `deregister` preserves coherence. -/
theorem coherent_after_deregister (s : TabRecency) (tabId : Int)
    (h : coherentState s = true) : coherentState (s.deregister tabId) = true := by
  rcases deregister_jumpList_cases s tabId with hc | ⟨jl, hjl, _, hres⟩
  · unfold coherentState
    rw [hc]
  · unfold coherentState
    rw [hres, deregister_current]
    unfold coherentState at h
    rw [hjl] at h
    exact h

/-- Deregistering the anchor tab of a live jump list discards it. -/
theorem deregister_anchor_drops (s : TabRecency) (tabId : Int)
    (jl : TabJumpList) (h : s.jumpList = some jl)
    (ha : jsIdx jl.tabs jl.activeIdx = some tabId) :
    (s.deregister tabId).jumpList = none := by
  rcases deregister_jumpList_cases s tabId with hc | ⟨jl', hjl', hne, _⟩
  · exact hc
  · rw [h] at hjl'
    cases hjl'
    exact absurd ha hne

/-- Registering a tab that differs from the anchor discards the jump list. -/
theorem register_incoherent_drops (s : TabRecency) (tabId : Int) (now : Nat)
    (jl : TabJumpList) (h : s.jumpList = some jl)
    (ha : jsIdx jl.tabs jl.activeIdx ≠ some tabId) :
    (s.register tabId now).jumpList = none := by
  cases hres : (s.register tabId now).jumpList with
  | none => rfl
  | some jl' =>
    have h2 : ((s.creditPending now).dropIncoherent tabId).jumpList = some jl' := hres
    have h3 := dropIncoherent_spec _ _ _ h2
    rw [creditPending_jumpList, h] at h3
    cases h3.1
    exact absurd (of_decide_eq_true h3.2) ha

theorem coherent_runEvents (evs : List TabEvent) :
    ∀ s : TabRecency, coherentState s = true →
      coherentState (runEvents s evs) = true := by
  induction evs with
  | nil => intro s h; exact h
  | cons e rest ih =>
    intro s h
    cases e with
    | reg t now => exact ih _ (coherent_after_register s t now)
    | dereg t => exact ih _ (coherent_after_deregister s t h)

/-- C1: Coherence invariant.  The initial state is coherent, coherence is
preserved by every sequence of register/deregister events (so along any run
from the initial state, a non-none jump list has its anchor
`tabs[activeIdx]` equal to `current`), registering a tab different from the
anchor sets the jump list to none, and deregistering the anchor tab sets the
jump list to none. -/
theorem coherence_invariant :
    coherentState initialTabRecency = true
    ∧ (∀ (s : TabRecency) (evs : List TabEvent),
        coherentState s = true → coherentState (runEvents s evs) = true)
    ∧ (∀ (s : TabRecency) (tabId : Int) (now : Nat) (jl : TabJumpList),
        s.jumpList = some jl → jsIdx jl.tabs jl.activeIdx ≠ some tabId →
        (s.register tabId now).jumpList = none)
    ∧ (∀ (s : TabRecency) (tabId : Int) (jl : TabJumpList),
        s.jumpList = some jl → jsIdx jl.tabs jl.activeIdx = some tabId →
        (s.deregister tabId).jumpList = none) :=
  ⟨rfl, fun s evs h => coherent_runEvents evs s h,
    fun s tabId now jl h ha => register_incoherent_drops s tabId now jl h ha,
    fun s tabId jl h ha => deregister_anchor_drops s tabId jl h ha⟩

/-- Witness for C1 at concrete inputs: a state with a live coherent jump
list stays coherent across a deregister of a non-anchor tab followed by a
register of the anchor; registering a different tab drops the jump list. -/
theorem coherence_invariant_witness :
    coherentState
        { timestamp := 3, current := 6, cache := [(5, 2), (6, 3)],
          lastVisited := some 6, lastVisitedTime := some 300,
          jumpList := some ⟨[5, 6], 1, []⟩ } = true
    ∧ coherentState
        (runEvents
          { timestamp := 3, current := 6, cache := [(5, 2), (6, 3)],
            lastVisited := some 6, lastVisitedTime := some 300,
            jumpList := some ⟨[5, 6], 1, []⟩ }
          [TabEvent.dereg 5, TabEvent.reg 6 700]) = true
    ∧ (TabRecency.register
        { timestamp := 3, current := 6, cache := [(5, 2), (6, 3)],
          lastVisited := some 6, lastVisitedTime := some 300,
          jumpList := some ⟨[5, 6], 1, []⟩ } 9 700).jumpList = none :=
  ⟨by decide,
    coherence_invariant.2.1 _ [TabEvent.dereg 5, TabEvent.reg 6 700] (by decide),
    coherence_invariant.2.2.1 _ 9 700 ⟨[5, 6], 1, []⟩ rfl (by decide)⟩

/-- C10: deregistering the anchor tab of a jump list reports invalidated
(`true`) and leaves every field of the jump list exactly as it was; in
particular the anchor is not added to `deletedTabs`. -/
theorem deregister_anchor_frame (jl : TabJumpList) (tabId : Int)
    (h : jsIdx jl.tabs jl.activeIdx = some tabId) :
    jl.deregister tabId = (true, jl) := by
  unfold TabJumpList.deregister
  simp [h]

/-- Witness for C10: deregistering the anchor `5` of the jump list
`⟨[3,5], 1, ∅⟩` returns `true` and the unchanged structure. -/
theorem deregister_anchor_frame_witness :
    (⟨[3, 5], 1, []⟩ : TabJumpList).deregister 5 =
      (true, (⟨[3, 5], 1, []⟩ : TabJumpList)) :=
  deregister_anchor_frame ⟨[3, 5], 1, []⟩ 5 (by decide)

/-- C3 (code bug): at a boundary, the step functions report the `-1`
sentinel, yet `jumpBackTab`/`jumpForwardTab` still invoke the external
activation primitive `selectSpecificTab`, passing `-1` — the guarding
ternary `backTabId === -1 ? this.current : backTabId;` is an expression
statement whose value is discarded.  Evaluated here at a tracker whose jump
list sits at its only live tab (boundary in both directions) and, for the
forward case, also at a tracker with no jump list at all. -/
theorem boundary_jump_still_activates :
    ((⟨[5], 0, []⟩ : TabJumpList).getJumpBackTabId.1 = -1
      ∧ (TabRecency.jumpBackTab
          { timestamp := 1, current := 5, cache := [], lastVisited := some 5,
            lastVisitedTime := some 0,
            jumpList := some ⟨[5], 0, []⟩ }).2 = [-1])
    ∧ ((⟨[5], 0, []⟩ : TabJumpList).getJumpForwardTabId.1 = -1
      ∧ (TabRecency.jumpForwardTab
          { timestamp := 1, current := 5, cache := [], lastVisited := some 5,
            lastVisitedTime := some 0,
            jumpList := some ⟨[5], 0, []⟩ }).2 = [-1])
    ∧ (TabRecency.jumpForwardTab
        { timestamp := 1, current := 5, cache := [], lastVisited := some 5,
          lastVisitedTime := some 0, jumpList := none }).2 = [-1] := by
  decide

/-- C2: debounce.  When a register arrives while a pending tab `p` exists
(pending since `pt`), `p` is credited with the freshly incremented clock
value exactly when at least `TIME_DELTA` ms have elapsed; with a shorter
dwell the cache is left completely unchanged, so a never-credited tab still
has no entry. -/
theorem register_debounce (s : TabRecency) (tabId p : Int) (now pt : Nat)
    (hp : s.lastVisited = some p) (ht : s.lastVisitedTime = some pt) :
    (TIME_DELTA ≤ now - pt →
        (s.register tabId now).timestamp = s.timestamp + 1
        ∧ lookupCache (s.register tabId now).cache p = some (s.timestamp + 1))
    ∧ (now - pt < TIME_DELTA →
        (s.register tabId now).timestamp = s.timestamp
        ∧ (s.register tabId now).cache = s.cache
        ∧ (lookupCache s.cache p = none →
            lookupCache (s.register tabId now).cache p = none)) := by
  have hcache : (s.register tabId now).cache = (s.creditPending now).cache := by
    show ((s.creditPending now).dropIncoherent tabId).cache = _
    unfold TabRecency.dropIncoherent
    split
    · split <;> rfl
    · rfl
  have hts : (s.register tabId now).timestamp = (s.creditPending now).timestamp := by
    show ((s.creditPending now).dropIncoherent tabId).timestamp = _
    unfold TabRecency.dropIncoherent
    split
    · split <;> rfl
    · rfl
  constructor
  · intro hd
    have hc : s.creditPending now =
        { s with timestamp := s.timestamp + 1,
                 cache := setCache s.cache p (s.timestamp + 1) } := by
      unfold TabRecency.creditPending
      rw [ht, hp]
      simp [hd]
    rw [hts, hcache, hc]
    exact ⟨rfl, lookupCache_setCache_self s.cache p (s.timestamp + 1)⟩
  · intro hd
    have hd' : ¬ TIME_DELTA ≤ now - pt := by omega
    have hc : s.creditPending now = s := by
      unfold TabRecency.creditPending
      rw [ht, hp]
      simp [hd']
    rw [hts, hcache, hc]
    exact ⟨rfl, rfl, fun h => h⟩

/-- Witness for C2: pending tab 5 since t=0; a register of 7 at t=300
credits 5 with clock value 2, while a register of 7 at t=100 would leave the
cache empty. -/
theorem register_debounce_witness :
    lookupCache
        (TabRecency.register
          { timestamp := 1, current := 5, cache := [], lastVisited := some 5,
            lastVisitedTime := some 0, jumpList := none } 7 300).cache 5 =
      some 2
    ∧ (TabRecency.register
          { timestamp := 1, current := 5, cache := [], lastVisited := some 5,
            lastVisitedTime := some 0, jumpList := none } 7 100).cache = [] :=
  ⟨((register_debounce
      { timestamp := 1, current := 5, cache := [], lastVisited := some 5,
        lastVisitedTime := some 0, jumpList := none } 7 5 300 0 rfl rfl).1
      (by decide)).2,
    ((register_debounce
      { timestamp := 1, current := 5, cache := [], lastVisited := some 5,
        lastVisitedTime := some 0, jumpList := none } 7 5 100 0 rfl rfl).2
      (by decide)).2.1⟩

/-- C9 counterexample: along the reachable run `register 5 @ 0` then
`register 5 @ 300`, tab 5 is the current (and pending) tab before and after
the second event, yet the second event writes a fresh timestamp for it —
refuting "the timestamp of the currently active tab is never updated while
it remains active". -/
theorem active_timestamp_updated_cex :
    (runEvents initialTabRecency [TabEvent.reg 5 0]).current = 5
    ∧ (runEvents initialTabRecency [TabEvent.reg 5 0]).lastVisited = some 5
    ∧ lookupCache (runEvents initialTabRecency [TabEvent.reg 5 0]).cache 5 = none
    ∧ (runEvents initialTabRecency [TabEvent.reg 5 0, TabEvent.reg 5 300]).current = 5
    ∧ (runEvents initialTabRecency
        [TabEvent.reg 5 0, TabEvent.reg 5 300]).lastVisited = some 5
    ∧ lookupCache
        (runEvents initialTabRecency
          [TabEvent.reg 5 0, TabEvent.reg 5 300]).cache 5 = some 2 := by
  decide

/-- C9 amended: a register call writes the cache entry of a tab `t` only
when `t` is the pending (last-visited) tab and it has been pending for at
least the debounce interval.  (When the incoming tab differs from the
pending one this is the moment the pending tab stops being active; a
re-register of the pending tab itself, however, rewrites its timestamp while
it stays active.) -/
theorem register_write_only_pending (s : TabRecency) (tabId t : Int) (now : Nat)
    (hch : lookupCache (s.register tabId now).cache t ≠ lookupCache s.cache t) :
    s.lastVisited = some t
    ∧ ∃ pt, s.lastVisitedTime = some pt ∧ TIME_DELTA ≤ now - pt := by
  have hcache : (s.register tabId now).cache = (s.creditPending now).cache := by
    show ((s.creditPending now).dropIncoherent tabId).cache = _
    unfold TabRecency.dropIncoherent
    split
    · split <;> rfl
    · rfl
  rw [hcache] at hch
  unfold TabRecency.creditPending at hch
  split at hch
  · rename_i lvt lv hlvt hlv
    split at hch
    · rename_i hd
      by_cases hteq : t = lv
      · subst hteq
        exact ⟨hlv, lvt, hlvt, hd⟩
      · have hred :
            ({ s with
                timestamp := s.timestamp + 1,
                cache := setCache s.cache lv (s.timestamp + 1) } : TabRecency).cache =
              setCache s.cache lv (s.timestamp + 1) := rfl
        rw [hred] at hch
        exact absurd (lookupCache_setCache_ne s.cache lv t (s.timestamp + 1) hteq) hch
    · exact absurd rfl hch
  · exact absurd rfl hch

theorem insertByStamp_perm (p : Int × Nat) (l : List (Int × Nat)) :
    List.Perm (insertByStamp p l) (p :: l) := by
  induction l with
  | nil => exact List.Perm.refl _
  | cons q rest ih =>
    unfold insertByStamp
    by_cases h : p.2 ≤ q.2
    · simp only [if_pos h]
      exact List.Perm.trans (List.Perm.cons q ih) (List.Perm.swap p q rest)
    · simp only [if_neg h]
      exact List.Perm.refl _

theorem sortByStampDesc_perm (c : List (Int × Nat)) :
    List.Perm (sortByStampDesc c) c := by
  induction c with
  | nil => exact List.Perm.refl _
  | cons p rest ih =>
    exact List.Perm.trans (insertByStamp_perm p (sortByStampDesc rest))
      (List.Perm.cons p ih)

theorem pairwise_insertByStamp (p : Int × Nat) (l : List (Int × Nat))
    (h : l.Pairwise (fun a b : Int × Nat => b.2 ≤ a.2)) :
    (insertByStamp p l).Pairwise (fun a b : Int × Nat => b.2 ≤ a.2) := by
  induction l with
  | nil => simp [insertByStamp]
  | cons q rest ih =>
    rw [List.pairwise_cons] at h
    unfold insertByStamp
    by_cases hpq : p.2 ≤ q.2
    · simp only [if_pos hpq]
      rw [List.pairwise_cons]
      refine ⟨?_, ih h.2⟩
      intro x hx
      rcases List.mem_cons.mp ((insertByStamp_perm p rest).mem_iff.mp hx) with
        rfl | hm
      · exact hpq
      · exact h.1 x hm
    · simp only [if_neg hpq]
      have hqp : q.2 ≤ p.2 := Nat.le_of_lt (Nat.lt_of_not_le hpq)
      rw [List.pairwise_cons]
      constructor
      · intro x hx
        rcases List.mem_cons.mp hx with rfl | hm
        · exact hqp
        · exact Nat.le_trans (h.1 x hm) hqp
      · rw [List.pairwise_cons]
        exact h

theorem sortByStampDesc_pairwise (c : List (Int × Nat)) :
    (sortByStampDesc c).Pairwise (fun a b : Int × Nat => b.2 ≤ a.2) := by
  induction c with
  | nil => exact List.Pairwise.nil
  | cons p rest ih => exact pairwise_insertByStamp p _ ih

/-- C6: `getTabsByRecency` returns exactly the tabs that have a cache entry,
ordered by timestamp descending: any tab credited strictly later than another
appears strictly earlier in the result, and a tab with no entry does not
appear. -/
theorem getTabsByRecency_spec (s : TabRecency) :
    (∀ t : Int, t ∈ s.getTabsByRecency ↔ ∃ v, (t, v) ∈ s.cache)
    ∧ (∀ (x y : Int) (tx ty : Nat), (x, tx) ∈ s.cache → (y, ty) ∈ s.cache →
        ty < tx →
        ∃ i j : Nat, i < j ∧ s.getTabsByRecency[i]? = some x
          ∧ s.getTabsByRecency[j]? = some y) := by
  have hperm := sortByStampDesc_perm s.cache
  have hpw := sortByStampDesc_pairwise s.cache
  constructor
  · intro t
    unfold TabRecency.getTabsByRecency
    rw [List.mem_map]
    constructor
    · rintro ⟨⟨t', v⟩, hm, he⟩
      cases he
      exact ⟨v, hperm.mem_iff.mp hm⟩
    · rintro ⟨v, hv⟩
      exact ⟨(t, v), hperm.mem_iff.mpr hv, rfl⟩
  · intro x y tx ty hx hy hlt
    obtain ⟨i, hi⟩ := List.mem_iff_getElem?.mp (hperm.mem_iff.mpr hx)
    obtain ⟨j, hj⟩ := List.mem_iff_getElem?.mp (hperm.mem_iff.mpr hy)
    obtain ⟨hilen, hig⟩ := List.getElem?_eq_some_iff.mp hi
    obtain ⟨hjlen, hjg⟩ := List.getElem?_eq_some_iff.mp hj
    have hij : i < j := by
      rcases Nat.lt_trichotomy i j with h | h | h
      · exact h
      · subst h
        rw [hig] at hjg
        injection hjg with h1 h2
        omega
      · have hr := (List.pairwise_iff_getElem.mp hpw) j i hjlen hilen h
        rw [hig, hjg] at hr
        simp only [] at hr
        omega
    refine ⟨i, j, hij, ?_, ?_⟩
    · unfold TabRecency.getTabsByRecency
      rw [List.getElem?_map, hi]
      rfl
    · unfold TabRecency.getTabsByRecency
      rw [List.getElem?_map, hj]
      rfl

/-- Witness for C6 at a concrete cache `[(4,2), (9,3)]`: tab 9 (timestamp 3)
precedes tab 4 (timestamp 2) in `getTabsByRecency`, and a tab is in the
result exactly when it has an entry. -/
theorem getTabsByRecency_spec_witness :
    (9 ∈ TabRecency.getTabsByRecency
        { timestamp := 3, current := 9, cache := [(4, 2), (9, 3)],
          lastVisited := some 9, lastVisitedTime := some 300,
          jumpList := none } ↔
      ∃ v, ((9 : Int), v) ∈ [((4 : Int), (2 : Nat)), (9, 3)])
    ∧ ∃ i j : Nat, i < j
        ∧ (TabRecency.getTabsByRecency
            { timestamp := 3, current := 9, cache := [(4, 2), (9, 3)],
              lastVisited := some 9, lastVisitedTime := some 300,
              jumpList := none })[i]? = some 9
        ∧ (TabRecency.getTabsByRecency
            { timestamp := 3, current := 9, cache := [(4, 2), (9, 3)],
              lastVisited := some 9, lastVisitedTime := some 300,
              jumpList := none })[j]? = some 4 :=
  ⟨(getTabsByRecency_spec _).1 9,
    (getTabsByRecency_spec _).2 9 4 3 2 (by decide) (by decide) (by decide)⟩

theorem scanBack_keep (jl : TabJumpList) (j i : Nat)
    (h : jl.scanBack j = some i) : jl.keep i = true := by
  induction j with
  | zero =>
    unfold TabJumpList.scanBack at h
    by_cases hk : jl.keep 0 = true
    · rw [if_pos hk] at h
      injection h with h2
      subst h2
      exact hk
    · rw [if_neg hk] at h
      exact Option.noConfusion h
  | succ j ih =>
    unfold TabJumpList.scanBack at h
    by_cases hk : jl.keep (j + 1) = true
    · rw [if_pos hk] at h
      injection h with h2
      subst h2
      exact hk
    · rw [if_neg hk] at h
      exact ih h

theorem scanBack_none (jl : TabJumpList) (j : Nat)
    (h : ∀ i, i ≤ j → jl.keep i = false) : jl.scanBack j = none := by
  induction j with
  | zero =>
    unfold TabJumpList.scanBack
    rw [if_neg (by rw [h 0 (Nat.le_refl 0)]; exact Bool.false_ne_true)]
  | succ j ih =>
    unfold TabJumpList.scanBack
    rw [if_neg (by rw [h (j + 1) (Nat.le_refl _)]; exact Bool.false_ne_true)]
    exact ih fun i hi => h i (Nat.le_succ_of_le hi)

theorem scanKept_spec (deleted : List Int) (l : List Int) (k : Nat)
    (h : scanKept deleted l = some k) :
    ∃ t, l[k]? = some t ∧ ¬ t ∈ deleted := by
  induction l generalizing k with
  | nil => exact Option.noConfusion h
  | cons t rest ih =>
    unfold scanKept at h
    by_cases hm : t ∈ deleted
    · rw [if_pos hm] at h
      cases hr : scanKept deleted rest with
      | none =>
        rw [hr] at h
        exact Option.noConfusion h
      | some k' =>
        rw [hr] at h
        injection h with h2
        subst h2
        obtain ⟨t', h1, h2⟩ := ih k' hr
        exact ⟨t', by simpa using h1, h2⟩
    · rw [if_neg hm] at h
      injection h with h2
      subst h2
      exact ⟨t, by simp, hm⟩

theorem scanKept_none (deleted l : List Int)
    (h : ∀ t ∈ l, t ∈ deleted) : scanKept deleted l = none := by
  induction l with
  | nil => rfl
  | cons t rest ih =>
    unfold scanKept
    rw [if_pos (h t (List.mem_cons_self t rest)),
      ih fun x hx => h x (List.mem_cons_of_mem t hx)]
    rfl

/-- A traversal step never returns a tombstoned tab (other than through the
`-1` sentinel, which is not a tab identifier). -/
theorem jumpStep_ne_deleted (jl : TabJumpList) (d : JumpDir) (t0 : Int)
    (ht : t0 ∈ jl.deletedTabs) (hne : t0 ≠ -1) : (jumpStep jl d).1 ≠ t0 := by
  cases d with
  | back =>
    show jl.getJumpBackTabId.1 ≠ t0
    unfold TabJumpList.getJumpBackTabId
    split
    · exact fun he => hne he.symm
    · cases hs : jl.scanBack (jl.activeIdx - 1).toNat with
      | none => exact fun he => hne he.symm
      | some i =>
        have hk := scanBack_keep jl _ i hs
        unfold TabJumpList.keep at hk
        cases hg : jl.tabs[i]? with
        | none =>
          show ((jl.tabs[i]?).getD (-1)) ≠ t0
          rw [hg]
          exact fun he => hne he.symm
        | some t =>
          rw [hg] at hk
          have htd : ¬ t ∈ jl.deletedTabs := by simpa using hk
          show ((jl.tabs[i]?).getD (-1)) ≠ t0
          rw [hg]
          intro he
          rw [show ((some t).getD (-1)) = t from rfl] at he
          exact htd (he ▸ ht)
  | fwd =>
    show jl.getJumpForwardTabId.1 ≠ t0
    unfold TabJumpList.getJumpForwardTabId
    cases hs : (scanKept jl.deletedTabs
        (jl.tabs.drop (jl.activeIdx + 1).toNat)).map
          (fun k => (jl.activeIdx + 1).toNat + k) with
    | none => exact fun he => hne he.symm
    | some i =>
      obtain ⟨k, hk, hik⟩ := Option.map_eq_some'.mp hs
      obtain ⟨t, hg, htd⟩ := scanKept_spec _ _ _ hk
      rw [List.getElem?_drop] at hg
      show ((jl.tabs[i]?).getD (-1)) ≠ t0
      rw [← hik, hg]
      intro he
      rw [show ((some t).getD (-1)) = t from rfl] at he
      exact htd (he ▸ ht)

theorem jumpStep_deletedTabs (jl : TabJumpList) (d : JumpDir) :
    (jumpStep jl d).2.deletedTabs = jl.deletedTabs := by
  cases d with
  | back =>
    show jl.getJumpBackTabId.2.deletedTabs = jl.deletedTabs
    unfold TabJumpList.getJumpBackTabId
    split
    · rfl
    · split <;> rfl
  | fwd =>
    show jl.getJumpForwardTabId.2.deletedTabs = jl.deletedTabs
    unfold TabJumpList.getJumpForwardTabId
    split <;> rfl

/-- Once a tab is tombstoned, no sequence of back/forward traversal calls
ever returns it. -/
theorem jumpResults_avoid (t0 : Int) (hne : t0 ≠ -1) (ds : List JumpDir) :
    ∀ jl : TabJumpList, t0 ∈ jl.deletedTabs → t0 ∉ jumpResults jl ds := by
  induction ds with
  | nil =>
    intro jl _ h
    exact List.not_mem_nil t0 h
  | cons d rest ih =>
    intro jl hdel hmem
    cases List.mem_cons.mp hmem with
    | inl he => exact jumpStep_ne_deleted jl d t0 hdel hne he.symm
    | inr hm =>
      have hdel' : t0 ∈ (jumpStep jl d).2.deletedTabs := by
        rw [jumpStep_deletedTabs]
        exact hdel
      exact ih (jumpStep jl d).2 hdel' hm

/-- C7: deregistering a tab that is not the anchor of a jump list reports
"not invalidated" (`false`) and tombstones the tab, and no subsequent
sequence of `getJumpBackTabId`/`getJumpForwardTabId` calls ever returns that
tab's identifier.  (`tabId ≠ -1` excludes the sentinel, which is not a tab
identifier.) -/
theorem tombstone_skip (jl : TabJumpList) (tabId : Int) (hne : tabId ≠ -1)
    (hanchor : jsIdx jl.tabs jl.activeIdx ≠ some tabId) :
    (jl.deregister tabId).1 = false
    ∧ tabId ∈ (jl.deregister tabId).2.deletedTabs
    ∧ ∀ ds : List JumpDir, tabId ∉ jumpResults (jl.deregister tabId).2 ds := by
  have hd : jl.deregister tabId =
      (false,
        { jl with
          deletedTabs :=
            if tabId ∈ jl.deletedTabs then jl.deletedTabs
            else jl.deletedTabs ++ [tabId] }) := by
    unfold TabJumpList.deregister
    rw [if_neg hanchor]
  have hmem : tabId ∈ (jl.deregister tabId).2.deletedTabs := by
    rw [hd]
    by_cases hm : tabId ∈ jl.deletedTabs <;> simp [hm]
  exact ⟨by rw [hd], hmem, fun ds => jumpResults_avoid tabId hne ds _ hmem⟩

/-- Witness for C7: tombstoning tab 2 in jump list `⟨[1,2,3], 2, ∅⟩` (anchor
3) reports `false`, and a four-step traversal never returns 2. -/
theorem tombstone_skip_witness :
    ((⟨[1, 2, 3], 2, []⟩ : TabJumpList).deregister 2).1 = false
    ∧ (2 : Int) ∈ ((⟨[1, 2, 3], 2, []⟩ : TabJumpList).deregister 2).2.deletedTabs
    ∧ (2 : Int) ∉ jumpResults ((⟨[1, 2, 3], 2, []⟩ : TabJumpList).deregister 2).2
        [JumpDir.back, JumpDir.back, JumpDir.fwd, JumpDir.fwd] :=
  ⟨(tombstone_skip ⟨[1, 2, 3], 2, []⟩ 2 (by decide) (by decide)).1,
    (tombstone_skip ⟨[1, 2, 3], 2, []⟩ 2 (by decide) (by decide)).2.1,
    (tombstone_skip ⟨[1, 2, 3], 2, []⟩ 2 (by decide) (by decide)).2.2
      [JumpDir.back, JumpDir.back, JumpDir.fwd, JumpDir.fwd]⟩

/-- C8: boundary idempotence.  In a well-formed jump list with no live
(non-tombstoned) tab below `activeIdx`, `getJumpBackTabId` returns the `-1`
sentinel and leaves the whole state (in particular `activeIdx`) unchanged,
so a repeated call returns `-1` again; symmetrically above `activeIdx` for
`getJumpForwardTabId`. -/
theorem jump_boundary_idempotence (jl : TabJumpList) (hwf : jl.WellFormed) :
    (allDeadBelow jl = true →
        jl.getJumpBackTabId = (-1, jl)
        ∧ (jl.getJumpBackTabId.2.getJumpBackTabId).1 = -1)
    ∧ (allDeadAbove jl = true →
        jl.getJumpForwardTabId = (-1, jl)
        ∧ (jl.getJumpForwardTabId.2.getJumpForwardTabId).1 = -1) := by
  obtain ⟨hw1, hw2⟩ := hwf
  constructor
  · intro hall
    have hmain : jl.getJumpBackTabId = (-1, jl) := by
      unfold TabJumpList.getJumpBackTabId
      split
      · rfl
      · rename_i hge
        have hnone : jl.scanBack (jl.activeIdx - 1).toNat = none := by
          apply scanBack_none
          intro i hi
          have hilt : i < jl.activeIdx.toNat := by omega
          have hlen : i < jl.tabs.length := by omega
          have hg : jl.tabs[i]? = some jl.tabs[i] := List.getElem?_eq_getElem hlen
          have hmem : jl.tabs[i] ∈ jl.tabs.take jl.activeIdx.toNat :=
            List.getElem?_mem (by rw [List.getElem?_take_of_lt hilt, hg])
          have hdel : jl.tabs[i] ∈ jl.deletedTabs := by
            simpa using List.all_eq_true.mp hall _ hmem
          unfold TabJumpList.keep
          rw [hg]
          simpa using hdel
        rw [hnone]
    refine ⟨hmain, ?_⟩
    show (jl.getJumpBackTabId.2.getJumpBackTabId).1 = -1
    rw [hmain]
    show (jl.getJumpBackTabId).1 = -1
    rw [hmain]
  · intro hall
    have hmain : jl.getJumpForwardTabId = (-1, jl) := by
      unfold TabJumpList.getJumpForwardTabId
      have hnone : scanKept jl.deletedTabs
          (jl.tabs.drop (jl.activeIdx + 1).toNat) = none := by
        apply scanKept_none
        intro t htm
        simpa using List.all_eq_true.mp hall _ htm
      rw [hnone]
      rfl
    refine ⟨hmain, ?_⟩
    show (jl.getJumpForwardTabId.2.getJumpForwardTabId).1 = -1
    rw [hmain]
    show (jl.getJumpForwardTabId).1 = -1
    rw [hmain]

/-- Witness for C8: with everything below the anchor tombstoned, stepping
back from `⟨[1,2,3], 1, {1}⟩` is the identity with result `-1`; with
everything above tombstoned, stepping forward from `⟨[1,2,3], 1, {3}⟩`
likewise. -/
theorem jump_boundary_idempotence_witness :
    (⟨[1, 2, 3], 1, [1]⟩ : TabJumpList).getJumpBackTabId =
      (-1, (⟨[1, 2, 3], 1, [1]⟩ : TabJumpList))
    ∧ (⟨[1, 2, 3], 1, [3]⟩ : TabJumpList).getJumpForwardTabId =
      (-1, (⟨[1, 2, 3], 1, [3]⟩ : TabJumpList)) :=
  ⟨((jump_boundary_idempotence ⟨[1, 2, 3], 1, [1]⟩ (by decide)).1 (by decide)).1,
    ((jump_boundary_idempotence ⟨[1, 2, 3], 1, [3]⟩ (by decide)).2 (by decide)).1⟩

theorem buildJumpTabs_shape (s : TabRecency) :
    s.buildJumpTabs = s.getTabsByRecency.reverse
    ∨ s.buildJumpTabs = s.getTabsByRecency.reverse ++ [s.current] := by
  unfold TabRecency.buildJumpTabs
  cases hl : s.getTabsByRecency.reverse.getLast? with
  | none => exact Or.inl rfl
  | some l =>
    by_cases he : l = s.current
    · simp only [he, ne_eq, not_true_eq_false, reduceIte]
      exact Or.inl trivial
    · simp only [ne_eq, he, not_false_eq_true, reduceIte]
      exact Or.inr trivial

theorem buildJumpTabs_getLast (s : TabRecency)
    (h : s.getTabsByRecency ≠ []) :
    s.buildJumpTabs.getLast? = some s.current := by
  have hrev : s.getTabsByRecency.reverse ≠ [] := by
    simpa using h
  unfold TabRecency.buildJumpTabs
  cases hl : s.getTabsByRecency.reverse.getLast? with
  | none =>
    rw [List.getLast?_eq_none_iff] at hl
    exact absurd hl hrev
  | some l =>
    by_cases he : l = s.current
    · simp only [he, ne_eq, not_true_eq_false, reduceIte]
      rw [hl, he]
    · simp only [ne_eq, he, not_false_eq_true, reduceIte]
      exact List.getLast?_concat _

/-- `l[length - 1]` is the last element of a non-empty list. -/
theorem jsIdx_last (l : List Int) (h : l ≠ []) :
    jsIdx l ((l.length : Int) - 1) = l.getLast? := by
  have hlen : 0 < l.length := List.length_pos.mpr h
  unfold jsIdx
  rw [if_pos (by omega)]
  have htn : ((l.length : Int) - 1).toNat = l.length - 1 := by omega
  rw [htn, List.getLast?_eq_getElem?]

/-- C4 counterexample: from the reachable state after `register 5 @ 0`
(empty cache, so an empty ranking), `jumpBackTab` constructs a jump list
whose snapshot is the empty sequence, with `activeIdx = -1`: the current tab
5 is not its last element, refuting "in every newly constructed jump list
the current tab is the last element of the snapshot". -/
theorem jumpback_empty_snapshot_cex :
    (runEvents initialTabRecency [TabEvent.reg 5 0]).jumpList = none
    ∧ (runEvents initialTabRecency [TabEvent.reg 5 0]).current = 5
    ∧ ((runEvents initialTabRecency [TabEvent.reg 5 0]).jumpBackTab).1.jumpList =
        some ⟨[], -1, []⟩
    ∧ ¬ ((runEvents initialTabRecency
          [TabEvent.reg 5 0]).buildJumpTabs.getLast? = some 5) := by
  decide

/-- C4 amended: when no jump list exists, `jumpBackTab` builds the snapshot
as the reversed ranking (oldest first) with `current` appended when the
reversed ranking is non-empty and does not already end in `current`; hence
whenever the ranking is non-empty, the newly constructed jump list has the
current tab as its last element, `activeIdx = length - 1` points at it, and
the list is coherent.  (With an empty ranking the snapshot is empty,
`activeIdx = -1`, and the current tab is absent.)  `jumpBackTab` then stores
the stepped version of exactly this construction. -/
theorem jumpback_snapshot_spec (s : TabRecency) (hnolist : s.jumpList = none)
    (hrank : s.getTabsByRecency ≠ []) :
    (s.buildJumpTabs = s.getTabsByRecency.reverse
      ∨ s.buildJumpTabs = s.getTabsByRecency.reverse ++ [s.current])
    ∧ s.builtJumpList.tabs.getLast? = some s.current
    ∧ s.builtJumpList.activeIdx = (s.builtJumpList.tabs.length : Int) - 1
    ∧ s.builtJumpList.isCoherent s.current = true
    ∧ s.jumpBackTab.1.jumpList = some s.builtJumpList.getJumpBackTabId.2 := by
  have hlast : s.buildJumpTabs.getLast? = some s.current :=
    buildJumpTabs_getLast s hrank
  have hne : s.buildJumpTabs ≠ [] := by
    intro he
    rw [he] at hlast
    exact Option.noConfusion hlast
  refine ⟨buildJumpTabs_shape s, hlast, rfl, ?_, ?_⟩
  · unfold TabJumpList.isCoherent
    have : jsIdx s.builtJumpList.tabs s.builtJumpList.activeIdx = some s.current := by
      show jsIdx s.buildJumpTabs ((s.buildJumpTabs.length : Int) - 1) = some s.current
      rw [jsIdx_last _ hne, hlast]
    rw [this]
    simp
  · unfold TabRecency.jumpBackTab
    rw [hnolist]

/-- Witness for C4's amended theorem: in a tracker with ranking `[6, 5]` and
current tab 7, the constructed snapshot ends in the current tab 7 and the
built jump list is coherent with it. -/
theorem jumpback_snapshot_spec_witness :
    (TabRecency.buildJumpTabs
        { timestamp := 3, current := 7, cache := [(5, 2), (6, 3)],
          lastVisited := some 7, lastVisitedTime := some 600,
          jumpList := none }).getLast? = some 7
    ∧ (TabRecency.builtJumpList
        { timestamp := 3, current := 7, cache := [(5, 2), (6, 3)],
          lastVisited := some 7, lastVisitedTime := some 600,
          jumpList := none }).isCoherent 7 = true :=
  ⟨(jumpback_snapshot_spec
      { timestamp := 3, current := 7, cache := [(5, 2), (6, 3)],
        lastVisited := some 7, lastVisitedTime := some 600,
        jumpList := none } rfl (by decide)).2.1,
    (jumpback_snapshot_spec
      { timestamp := 3, current := 7, cache := [(5, 2), (6, 3)],
        lastVisited := some 7, lastVisitedTime := some 600,
        jumpList := none } rfl (by decide)).2.2.2.1⟩

/-- C5 counterexample: from the reachable state after `register 5 @ 0`
(no live jump list), `jumpForwardTab` does not construct a jump list — the
tracker still has none afterwards (and the activation primitive is handed
the `-1` sentinel), refuting "a jumpForward command, like jumpBack,
constructs a fresh jump list". -/
theorem jumpforward_no_rebuild_cex :
    (runEvents initialTabRecency [TabEvent.reg 5 0]).jumpList = none
    ∧ ((runEvents initialTabRecency
        [TabEvent.reg 5 0]).jumpForwardTab).1.jumpList = none
    ∧ ((runEvents initialTabRecency
        [TabEvent.reg 5 0]).jumpForwardTab).2 = [-1] := by
  decide

/-- C5 amended: only `jumpBackTab` rebuilds lazily.  For every state with no
live jump list, `jumpForwardTab` leaves the tracker unchanged (in particular
it constructs no jump list) and passes the `-1` sentinel to the activation
primitive, while `jumpBackTab` from the same state does construct and store
a jump list. -/
theorem jumpforward_no_rebuild (s : TabRecency) (h : s.jumpList = none) :
    s.jumpForwardTab.1 = s
    ∧ s.jumpForwardTab.2 = [-1]
    ∧ s.jumpBackTab.1.jumpList = some s.builtJumpList.getJumpBackTabId.2 := by
  refine ⟨?_, ?_, ?_⟩
  · unfold TabRecency.jumpForwardTab
    rw [h]
  · unfold TabRecency.jumpForwardTab
    rw [h]
  · unfold TabRecency.jumpBackTab
    rw [h]

/-- Witness for C5's amended theorem, at the reachable state after
`register 5 @ 0`. -/
theorem jumpforward_no_rebuild_witness :
    (runEvents initialTabRecency [TabEvent.reg 5 0]).jumpForwardTab.1 =
      runEvents initialTabRecency [TabEvent.reg 5 0]
    ∧ (runEvents initialTabRecency [TabEvent.reg 5 0]).jumpForwardTab.2 = [-1]
    ∧ (runEvents initialTabRecency [TabEvent.reg 5 0]).jumpBackTab.1.jumpList =
        some (runEvents initialTabRecency
          [TabEvent.reg 5 0]).builtJumpList.getJumpBackTabId.2 :=
  jumpforward_no_rebuild (runEvents initialTabRecency [TabEvent.reg 5 0]) rfl

/-- Witness for C9's amended theorem: with tab 5 pending since t=0, the
register of 7 at t=300 changes 5's cache entry, and the theorem then reports
5 as the pending tab with an elapsed dwell of at least the debounce
interval. -/
theorem register_write_only_pending_witness :
    ({ timestamp := 1, current := 5, cache := [], lastVisited := some 5,
        lastVisitedTime := some 0, jumpList := none } : TabRecency).lastVisited =
      some 5
    ∧ ∃ pt, ({ timestamp := 1, current := 5, cache := [], lastVisited := some 5,
                lastVisitedTime := some 0,
                jumpList := none } : TabRecency).lastVisitedTime =
          some pt ∧ TIME_DELTA ≤ 300 - pt :=
  register_write_only_pending
    { timestamp := 1, current := 5, cache := [], lastVisited := some 5,
      lastVisitedTime := some 0, jumpList := none } 7 5 300 (by decide)

end QuicKey
